import Mathlib

/-!
Verification of the chunked parameter-generation engine of `setup2`
(`src/setup2/src/cli/new.rs`).

Pure fragments of `new.rs` are embedded directly as Lean functions.
Repository code this development depends on that is not present under
`src/` (the `setup_utils` helpers `log_2` and `calculate_hash`, and
`phase2::parameters::MPCParameters::new_from_buffer_chunked`) is modelled
from the specification; each such definition carries a doc comment
starting with `Modelled from the spec:`.

Machine integers (`usize`) are modelled as `Nat`: none of the quantities
involved (constraint counts, chunk indices, powers) approach `2^64` in the
scenarios the claims quantify over, and the source performs no wrapping
arithmetic on them.
-/

/-- `setup_utils::UseCompression`, as used by `new.rs` (two modes). -/
inductive UseCompression
  | No
  | Yes
  deriving DecidableEq

/-- `const COMPRESSION: UseCompression = UseCompression::No;` (new.rs line 24). -/
def COMPRESSION : UseCompression := UseCompression.No

/-- `CurveKind` (new.rs lines 29–33). -/
inductive CurveKind
  | Bls12_377
  | BW6
  deriving DecidableEq

/-- `curve_from_str` (new.rs lines 35–42): a Rust `match` on the lowercased
input, written here as the equivalent chain of equality tests.  Rust's
`str::to_lowercase` is modelled by `String.toLower` (character-wise
lowercasing, which agrees on ASCII input). -/
def curve_from_str (src : String) : Except String CurveKind :=
  if src.toLower = "bls12_377" then Except.ok CurveKind.Bls12_377
  else if src.toLower = "bw6" then Except.ok CurveKind.BW6
  else Except.error "unsupported curve."

/-- `ContributionMode` (new.rs lines 44–48). -/
inductive ContributionMode
  | Full
  | Chunked
  deriving DecidableEq

/-- `contribution_mode_from_str` (new.rs lines 50–57). -/
def contribution_mode_from_str (src : String) : Except String ContributionMode :=
  if src.toLower = "full" then Except.ok ContributionMode.Full
  else if src.toLower = "chunked" then Except.ok ContributionMode.Chunked
  else Except.error "unsupported contribution mode. Currently supported: full, chunked"

/-- `NewOpts` (new.rs lines 59–109): the CLI options record. -/
structure NewOpts where
  phase1_size : Nat
  output : String
  curve_type : CurveKind
  contribution_mode : ContributionMode
  chunk_size : Nat
  batch_size : Nat
  is_inner : String
  challenge_fname : String
  challenge_hash_fname : String
  response_fname : String
  new_challenge_fname : String
  phase1_fname : String
  phase1_powers : Nat
  num_validators : Nat
  num_epochs : Nat

/-- `snarkvm_r1cs::ConstraintCounter`: the structural counts reported by
running a circuit against the counting-only evaluator (new.rs lines
149–157).  A circuit's evaluation is pure and repeatable (spec §3), so a
circuit is represented here by the counts it reports. -/
structure ConstraintCounter where
  num_public_variables : Nat
  num_private_variables : Nat
  num_constraints : Nat

/-- Fuel-driven floor base-2 logarithm (the fuel argument only makes the
recursion structural; `log2_fuel x x` computes `Nat.log2 x`). -/
def log2_fuel : Nat → Nat → Nat
  | 0, _ => 0
  | fuel + 1, x => if 2 ≤ x then log2_fuel fuel (x / 2) + 1 else 0

/-- Modelled from the spec: `setup_utils::log_2` is repository code that is
not under `src/`.  Spec §4.1 describes the rounding step of `CircuitSizer`
as working "from the bit-length of `required`", i.e. `log_2` is the floor
base-2 logarithm (bit-length minus one), which is also the conventional
meaning of the name. -/
def log_2 (x : Nat) : Nat := log2_fuel x x

/-- The body of `ceremony_size` (new.rs lines 148–170) applied to the counts
reported by the circuit, parameterized by the `log_2` helper so that facts
independent of `log_2`'s exact definition can be stated. -/
def ceremony_size_with (log2fn : Nat → Nat) (counter : ConstraintCounter) : Nat :=
  let phase2_size := max counter.num_constraints
    (counter.num_private_variables + counter.num_public_variables + 1)
  let power := log2fn phase2_size
  if phase2_size < 2 ^ power then 2 ^ (power + 1) else phase2_size

/-- `ceremony_size` (new.rs lines 148–170), with the modelled `log_2`. -/
def ceremony_size (counter : ConstraintCounter) : Nat :=
  ceremony_size_with log_2 counter

/-- Which of the two `new` branches runs (new.rs lines 111–144). -/
inductive SetupPath
  | inner
  | outer
  deriving DecidableEq

/-- The branch selection of `new` (new.rs line 112): the inner-circuit path
exactly when `opt.is_inner == "true"` (Rust `String` equality against the
literal `"true"`); every other string takes the outer-circuit path, and no
value of `is_inner` is rejected. -/
def new_circuit_path (opt : NewOpts) : SetupPath :=
  if opt.is_inner = "true" then SetupPath.inner else SetupPath.outer

/-- The `match COMPRESSION` at new.rs lines 206–210: both arms invoke the
same `query_parameters.serialize` call.  Serialized bytes are modelled as
`List Nat`. -/
def serialize_query_match {Q : Type} (compression : UseCompression)
    (serialize : Q → List Nat) (query_parameters : Q) : List Nat :=
  match compression with
  | UseCompression.No => serialize query_parameters
  | UseCompression.Yes => serialize query_parameters

/-- `ChunkRange` (spec §3): a half-open range of SRS indices assigned to one
chunk. -/
structure ChunkRange where
  index : Nat
  start : Nat
  «end» : Nat
  deriving DecidableEq

/-- Modelled from the spec: the ChunkPlanner (§4.3).  The chunk-boundary
computation lives inside `phase2::parameters::MPCParameters::new_from_buffer_chunked`,
which is not under `src/`.  Per §4.3 the planner produces
`ceil(total / chunk_size)` ranges, all of length `chunk_size` except the
last, which holds the remainder; so range `i` starts at `i * chunk_size`
and ends at the smaller of `(i + 1) * chunk_size` and `total`. -/
def plan (total chunk_size : Nat) : List ChunkRange :=
  (List.range ((total + chunk_size - 1) / chunk_size)).map fun i =>
    { index := i, start := i * chunk_size, «end» := min ((i + 1) * chunk_size) total }

/-- All the partition properties the spec demands of the ChunkPlanner output
(§3 ChunkRange, §4.3, §8): the range count is `ceil(total / chunk_size)`;
range `i` carries index `i`, starts at `i * chunk_size` and ends at
`min ((i + 1) * chunk_size) total`; consecutive ranges are contiguous; the
first range starts at `0`; every point of `[0, total)` lies in exactly one
range and no point outside does; every range but the last has length
`chunk_size`; and the last range has length `total % chunk_size`, or
`chunk_size` when `chunk_size` divides `total`. -/
def plan_is_partition (total chunk_size : Nat) : Prop :=
  (plan total chunk_size).length = (total + chunk_size - 1) / chunk_size ∧
  (∀ i : Nat, ∀ h : i < (plan total chunk_size).length,
    ((plan total chunk_size).get ⟨i, h⟩).index = i ∧
    ((plan total chunk_size).get ⟨i, h⟩).start = i * chunk_size ∧
    ((plan total chunk_size).get ⟨i, h⟩).«end» = min ((i + 1) * chunk_size) total) ∧
  (∀ i : Nat, ∀ h : i + 1 < (plan total chunk_size).length,
    ((plan total chunk_size).get ⟨i, Nat.lt_of_succ_lt h⟩).«end»
      = ((plan total chunk_size).get ⟨i + 1, h⟩).start) ∧
  (∀ h : 0 < (plan total chunk_size).length,
    ((plan total chunk_size).get ⟨0, h⟩).start = 0) ∧
  (∀ h : 0 < (plan total chunk_size).length,
    ((plan total chunk_size).get
        ⟨(plan total chunk_size).length - 1, by omega⟩).«end» = total) ∧
  (∀ k : Nat, k < total ↔ ∃ i : Nat, ∃ h : i < (plan total chunk_size).length,
    ((plan total chunk_size).get ⟨i, h⟩).start ≤ k ∧
    k < ((plan total chunk_size).get ⟨i, h⟩).«end») ∧
  (∀ k i j : Nat, ∀ hi : i < (plan total chunk_size).length,
    ∀ hj : j < (plan total chunk_size).length,
    ((plan total chunk_size).get ⟨i, hi⟩).start ≤ k →
    k < ((plan total chunk_size).get ⟨i, hi⟩).«end» →
    ((plan total chunk_size).get ⟨j, hj⟩).start ≤ k →
    k < ((plan total chunk_size).get ⟨j, hj⟩).«end» →
    i = j) ∧
  (∀ i : Nat, ∀ h : i + 1 < (plan total chunk_size).length,
    ((plan total chunk_size).get ⟨i, Nat.lt_of_succ_lt h⟩).«end»
      - ((plan total chunk_size).get ⟨i, Nat.lt_of_succ_lt h⟩).start = chunk_size) ∧
  (∀ h : 0 < (plan total chunk_size).length,
    ((plan total chunk_size).get
        ⟨(plan total chunk_size).length - 1, by omega⟩).«end»
      - ((plan total chunk_size).get
        ⟨(plan total chunk_size).length - 1, by omega⟩).start
      = if total % chunk_size = 0 then chunk_size else total % chunk_size)

/-- Modelled from the spec: §4.4 step 3 — each chunk's contribution is "a
linear transform from SRS powers into circuit-specific evaluation points"
that "must be deterministic and must not depend on chunk-processing order";
the value produced for one SRS index is therefore abstracted as a pure
function `g : Nat → α` of the index.  The full parameter set evaluates
every index of `[0, ceremony_size)`. -/
def full_parameters {α : Type} (g : Nat → α) (total : Nat) : List α :=
  (List.range total).map g

/-- Modelled from the spec: §4.4 step 5 — each chunk retains "its own
parameter slice" scoped to its `ChunkRange`. -/
def chunk_parameters {α : Type} (g : Nat → α) (r : ChunkRange) : List α :=
  (List.range' r.start (r.«end» - r.start)).map g

/-- Reassembling the contributions of all per-chunk artifacts: concatenating
every chunk's slice in ascending index order. -/
def reassemble {α : Type} (g : Nat → α) (total chunk_size : Nat) : List α :=
  ((plan total chunk_size).map (chunk_parameters g)).flatten

/-- Modelled from the spec: the error taxonomy entry for an undersized
Phase-1 transcript (§7 InsufficientTranscriptError). -/
inductive GenError
  | insufficientTranscript
  deriving DecidableEq

/-- The contents of one output artifact: binary bytes or UTF-8 text. -/
inductive FileData
  | bytes (content : List Nat)
  | text (content : String)
  deriving DecidableEq

/-- A file created by the generation run: its name and final contents. -/
structure FileWrite where
  name : String
  data : FileData
  deriving DecidableEq

/-- The chunk artifact filename `format!("{}.{}", opt.challenge_fname, i)`
(new.rs line 231). -/
def chunk_name (stem : String) (i : Nat) : String :=
  stem ++ "." ++ toString i

/-- The final contents of the chunk manifest built by the loop at new.rs
lines 228–238: one line `format!("{}.{}\n", opt.challenge_fname, i)` per
chunk, appended in ascending index order. -/
def manifest_content (stem : String) (n : Nat) : String :=
  String.join ((List.range n).map fun i => chunk_name stem i ++ "\n")

/-- The per-chunk artifact writes of the loop at new.rs lines 228–238:
chunk `i` is serialized with `MPCParameters::write` and stored under
`chunk_name stem i`. -/
def chunk_file_writes {P : Type} (write_params : P → List Nat) (stem : String)
    (chunks : List P) : List FileWrite :=
  chunks.enum.map fun ic =>
    { name := chunk_name stem ic.1, data := FileData.bytes (write_params ic.2) }

/-- Modelled from the spec: `MPCParameters::new_from_buffer_chunked` lives
in the `phase2` crate, which is not under `src/`.  Per §4.4 step 1 and §4.2
it first verifies `available_powers >= ceremony_size` and fails with the
insufficient-transcript error before any generation work; on success it
returns the full parameters, the query parameters and the per-chunk
parameter list, abstracted here as the pre-supplied triple `generated`. -/
def new_from_buffer_chunked {P Q : Type} (generated : P × Q × List P)
    (available_powers phase2_size : Nat) : Except GenError (P × Q × List P) :=
  if available_powers < phase2_size then Except.error GenError.insufficientTranscript
  else Except.ok generated

/-- `generate_params_chunked` (new.rs lines 172–248) as the sequence of
output files the run creates, in creation order.  The circuit is
represented by its constraint counts (`ceremony_size` consumes nothing
else of it); the opaque collaborators are parameters: `generated` stands
for the parameter triple computed from the transcript, `write_params` for
`MPCParameters::write`, `serialize` for `CanonicalSerialize::serialize`,
and `calculate_hash` for `setup_utils::calculate_hash`.  The hash artifact
name is `format!("{}.{}\n", opt.challenge_hash_fname, "query")` — newline
included — exactly as at new.rs line 240.  The appends to the manifest
file created at line 226 are collapsed into its final contents.  On the
error path (the `.unwrap()` panic at line 200) no output file has been
created. -/
def generate_params_chunked {P Q : Type} (counter : ConstraintCounter)
    (generated : P × Q × List P) (write_params : P → List Nat)
    (serialize : Q → List Nat) (calculate_hash : List Nat → List Nat)
    (opt : NewOpts) : Except GenError (List FileWrite) :=
  match new_from_buffer_chunked generated (1 <<< opt.phase1_powers)
      (ceremony_size counter) with
  | Except.error e => Except.error e
  | Except.ok (full_mpc_parameters, query_parameters, all_mpc_parameters) =>
    let serialized_mpc_parameters := write_params full_mpc_parameters
    let serialized_query_parameters :=
      serialize_query_match COMPRESSION serialize query_parameters
    let contribution_hash := calculate_hash serialized_mpc_parameters
    Except.ok
      ([{ name := opt.challenge_fname ++ ".full",
          data := FileData.bytes serialized_mpc_parameters },
        { name := opt.challenge_fname ++ ".query",
          data := FileData.bytes serialized_query_parameters },
        { name := "phase1",
          data := FileData.text
            (manifest_content opt.challenge_fname all_mpc_parameters.length) }]
        ++ chunk_file_writes write_params opt.challenge_fname all_mpc_parameters
        ++ [{ name := opt.challenge_hash_fname ++ ".query\n",
              data := FileData.bytes contribution_hash }])

/-- The gumdrop defaults of `NewOpts` (new.rs lines 59–109), with
`phase1_powers := 2`: only `1 << 2 = 4` powers available. -/
def sample_opts : NewOpts :=
  { phase1_size := 0, output := "challenge", curve_type := CurveKind.Bls12_377,
    contribution_mode := ContributionMode.Chunked, chunk_size := 256,
    batch_size := 256, is_inner := "true", challenge_fname := "challenge",
    challenge_hash_fname := "challenge.verified.hash",
    response_fname := "response", new_challenge_fname := "new_challenge",
    phase1_fname := "phase1", phase1_powers := 2, num_validators := 0,
    num_epochs := 0 }

/-- The gumdrop defaults with `phase1_powers := 3`: `1 << 3 = 8` powers
available, enough for `ceremony_size = 5`. -/
def sample_opts_ok : NewOpts := { sample_opts with phase1_powers := 3 }

/-- The concrete output of the C5 witness run. -/
def c5_writes : List FileWrite :=
  [{ name := "challenge.full", data := FileData.bytes [7] },
   { name := "challenge.query", data := FileData.bytes [9] },
   { name := "phase1", data := FileData.text "challenge.0\nchallenge.1\n" },
   { name := "challenge.0", data := FileData.bytes [7] },
   { name := "challenge.1", data := FileData.bytes [7] },
   { name := "challenge.verified.hash.query\n", data := FileData.bytes [0, 7] }]

/-- The concrete output of the C6 witness run. -/
def c6_writes : List FileWrite :=
  [{ name := "challenge.full", data := FileData.bytes [1] },
   { name := "challenge.query", data := FileData.bytes [2] },
   { name := "phase1", data := FileData.text "challenge.0\n" },
   { name := "challenge.0", data := FileData.bytes [1] },
   { name := "challenge.verified.hash.query\n", data := FileData.bytes [1] }]

/-- The concrete output of the C7 witness run. -/
def c7_writes : List FileWrite :=
  [{ name := "challenge.full", data := FileData.bytes [4] },
   { name := "challenge.query", data := FileData.bytes [5] },
   { name := "phase1", data := FileData.text "challenge.0\nchallenge.1\nchallenge.2\n" },
   { name := "challenge.0", data := FileData.bytes [4] },
   { name := "challenge.1", data := FileData.bytes [4] },
   { name := "challenge.2", data := FileData.bytes [4] },
   { name := "challenge.verified.hash.query\n", data := FileData.bytes [4] }]

/-- Floor-log2 lower bound: for positive `x`, `2 ^ log_2 x ≤ x`.
Proved for the fuel-driven computation by induction on the fuel. -/
theorem log2_fuel_pow_le (fuel : Nat) : ∀ x : Nat, 0 < x → x ≤ fuel →
    2 ^ log2_fuel fuel x ≤ x := by
  induction fuel with
  | zero => intro x hx hle; omega
  | succ n ih =>
    intro x hx hle
    rw [log2_fuel]
    by_cases h2 : 2 ≤ x
    · simp only [h2, if_true]
      have hhalf : 0 < x / 2 := Nat.div_pos h2 (by omega)
      have hlt : x / 2 < x := Nat.div_lt_self hx (by omega)
      have := ih (x / 2) hhalf (by omega)
      calc 2 ^ (log2_fuel n (x / 2) + 1) = 2 ^ log2_fuel n (x / 2) * 2 := by
            rw [Nat.pow_succ]
        _ ≤ x / 2 * 2 := by omega
        _ ≤ x := by omega
    · simp only [h2, if_false]
      omega

/-- For positive `x`, `2 ^ log_2 x ≤ x`. -/
theorem log_2_pow_le (x : Nat) (hx : 0 < x) : 2 ^ log_2 x ≤ x :=
  log2_fuel_pow_le x x hx (Nat.le_refl x)

/-- The guard `phase2_size < 2usize.pow(power)` in `ceremony_size` is never
satisfied when `log_2` is the floor base-2 logarithm, so `ceremony_size`
returns `required = max(constraints, private + public + 1)` unchanged. -/
theorem ceremony_size_eq_required (counter : ConstraintCounter) :
    ceremony_size counter
      = max counter.num_constraints
          (counter.num_private_variables + counter.num_public_variables + 1) := by
  unfold ceremony_size ceremony_size_with
  have hpos : 0 < max counter.num_constraints
      (counter.num_private_variables + counter.num_public_variables + 1) := by
    omega
  have hle := log_2_pow_le _ hpos
  simp only []
  rw [if_neg (by omega)]

/-- Claim C1: the spec says `ceremony_size` returns the smallest power of two
at least `max(constraints, public + private + 1)`, in particular `8` for a
circuit with 3 constraints and 2 public + 2 private variables.  The code does
not: the rounding guard `phase2_size < 2^(log_2 phase2_size)` is never true
for a floor base-2 `log_2`, so `ceremony_size` returns `required = 5`
unchanged, which is not a power of two — and no choice of `log_2` whatsoever
could make the code return `8` at `required = 5`. -/
theorem ceremony_size_not_rounded_up :
    ceremony_size ⟨2, 2, 3⟩ = 5 ∧
    (∀ k : Nat, 2 ^ k ≠ ceremony_size ⟨2, 2, 3⟩) ∧
    (∀ log2fn : Nat → Nat, ceremony_size_with log2fn ⟨2, 2, 3⟩ ≠ 8) ∧
    (∀ counter : ConstraintCounter, ceremony_size counter
        = max counter.num_constraints
            (counter.num_private_variables + counter.num_public_variables + 1)) := by
  refine ⟨by decide, ?_, ?_, ceremony_size_eq_required⟩
  · intro k
    have h5 : ceremony_size ⟨2, 2, 3⟩ = 5 := by decide
    rw [h5]
    match k with
    | 0 => decide
    | 1 => decide
    | 2 => decide
    | k + 3 =>
      have h8 : (8 : Nat) ≤ 2 ^ (k + 3) := by
        calc (8 : Nat) = 2 ^ 3 := by norm_num
          _ ≤ 2 ^ (k + 3) := Nat.pow_le_pow_right (by omega) (by omega)
      omega
  · intro log2fn h
    unfold ceremony_size_with at h
    simp only [] at h
    have hmax : max 3 (2 + 2 + 1) = 5 := by decide
    rw [hmax] at h
    by_cases hguard : 5 < 2 ^ log2fn 5
    · rw [if_pos hguard] at h
      have hk : 3 ≤ log2fn 5 := by
        by_contra hcon
        push_neg at hcon
        interval_cases hl : log2fn 5 <;> omega
      have : (2 : Nat) ^ 4 ≤ 2 ^ (log2fn 5 + 1) :=
        Nat.pow_le_pow_right (by omega) (by omega)
      omega
    · rw [if_neg hguard] at h
      omega

/-- Claim C8: `curve_from_str` succeeds exactly on inputs whose lowercasing
is `"bls12_377"` or `"bw6"` and otherwise returns the error string
`"unsupported curve."`; `contribution_mode_from_str` succeeds exactly on
inputs whose lowercasing is `"full"` or `"chunked"` and otherwise returns
the unsupported-contribution-mode error.  Both are pure parsers: the error
is produced by inspecting the string alone, before any generation work. -/
theorem mode_parsers_accept_exactly (s : String) :
    ((∃ c, curve_from_str s = Except.ok c)
        ↔ (s.toLower = "bls12_377" ∨ s.toLower = "bw6")) ∧
    (curve_from_str s = Except.error "unsupported curve."
        ↔ ¬(s.toLower = "bls12_377" ∨ s.toLower = "bw6")) ∧
    ((∃ m, contribution_mode_from_str s = Except.ok m)
        ↔ (s.toLower = "full" ∨ s.toLower = "chunked")) ∧
    (contribution_mode_from_str s
          = Except.error "unsupported contribution mode. Currently supported: full, chunked"
        ↔ ¬(s.toLower = "full" ∨ s.toLower = "chunked")) := by
  unfold curve_from_str contribution_mode_from_str
  refine ⟨?_, ?_, ?_, ?_⟩ <;> split_ifs <;> simp_all

/-- Claim C9: the serialized query artifact does not depend on the
`COMPRESSION` constant — both arms of the `match` invoke the same
serialization, so any compression mode yields the same bytes. -/
theorem query_bytes_ignore_compression {Q : Type}
    (serialize : Q → List Nat) (query_parameters : Q) :
    (serialize_query_match UseCompression.No serialize query_parameters
        = serialize_query_match UseCompression.Yes serialize query_parameters) ∧
    (∀ compression : UseCompression,
      serialize_query_match compression serialize query_parameters
        = serialize query_parameters) := by
  refine ⟨rfl, ?_⟩
  intro compression
  cases compression <;> rfl

/-- Claim C10: `new` chooses the inner-circuit path exactly when `is_inner`
is the exact string `"true"`; any other string — including `"True"`,
`"TRUE"` and `"1"` — selects the outer-circuit path, and no value of
`is_inner` is rejected as invalid. -/
theorem new_branches_on_exact_true (opt : NewOpts) :
    (new_circuit_path opt = SetupPath.inner ↔ opt.is_inner = "true") ∧
    (new_circuit_path opt = SetupPath.outer ↔ opt.is_inner ≠ "true") ∧
    new_circuit_path { opt with is_inner := "True" } = SetupPath.outer ∧
    new_circuit_path { opt with is_inner := "TRUE" } = SetupPath.outer ∧
    new_circuit_path { opt with is_inner := "1" } = SetupPath.outer := by
  unfold new_circuit_path
  refine ⟨?_, ?_, by simp, by simp, by simp⟩ <;> split_ifs with h <;> simp_all

/-- Length of the planner output: `ceil(total / chunk_size)` ranges. -/
theorem plan_length (total chunk_size : Nat) :
    (plan total chunk_size).length = (total + chunk_size - 1) / chunk_size := by
  simp [plan]

/-- The `i`-th planned range, explicitly. -/
theorem plan_get (total chunk_size i : Nat) (h : i < (plan total chunk_size).length) :
    (plan total chunk_size).get ⟨i, h⟩
      = { index := i, start := i * chunk_size,
          «end» := min ((i + 1) * chunk_size) total } := by
  simp [plan, List.get_eq_getElem]

/-- Bounds characterizing the ceiling division used by the planner. -/
theorem ceil_div_bounds (total chunk_size : Nat) (ht : 0 < total) (hc : 0 < chunk_size) :
    0 < (total + chunk_size - 1) / chunk_size ∧
    total ≤ ((total + chunk_size - 1) / chunk_size) * chunk_size ∧
    (((total + chunk_size - 1) / chunk_size) - 1) * chunk_size < total := by
  have hsplit : total + chunk_size - 1 = (total - 1) + chunk_size := by omega
  have hdiv : ((total - 1) + chunk_size) / chunk_size = (total - 1) / chunk_size + 1 :=
    Nat.add_div_right _ hc
  rw [hsplit, hdiv]
  have hmod := Nat.div_add_mod (total - 1) chunk_size
  have hltc := Nat.mod_lt (total - 1) hc
  generalize hq : (total - 1) / chunk_size = q at hmod ⊢
  generalize hr : (total - 1) % chunk_size = r at hmod hltc
  have e1 : (q + 1) * chunk_size = chunk_size * q + chunk_size := by ring
  have e2 : (q + 1 - 1) * chunk_size = chunk_size * q := by
    have hq1 : q + 1 - 1 = q := by omega
    rw [hq1]; ring
  rw [e1, e2]
  generalize hB : chunk_size * q = B at hmod ⊢
  omega

/-- If `i` is not the last planned index, range `i` ends strictly inside the
domain, so its nominal end `(i + 1) * chunk_size` is at most `total`. -/
theorem plan_mid_end_le (total chunk_size : Nat) (ht : 0 < total) (hc : 0 < chunk_size)
    (i : Nat) (hi : i + 1 < (plan total chunk_size).length) :
    (i + 1) * chunk_size ≤ total := by
  obtain ⟨hn0, hupper, hlower⟩ := ceil_div_bounds total chunk_size ht hc
  rw [plan_length] at hi
  have hi1 : i + 1 ≤ (total + chunk_size - 1) / chunk_size - 1 := by omega
  have hmul := Nat.mul_le_mul_right chunk_size hi1
  exact Nat.le_trans hmul (Nat.le_of_lt hlower)

/-- The length of the final range: the remainder `total % chunk_size`, or a
full `chunk_size` when the chunk size divides `total` evenly. -/
theorem last_chunk_length (total chunk_size n : Nat) (hc : 0 < chunk_size)
    (hupper : total ≤ n * chunk_size) (hlower : (n - 1) * chunk_size < total) :
    min ((n - 1 + 1) * chunk_size) total - (n - 1) * chunk_size
      = if total % chunk_size = 0 then chunk_size else total % chunk_size := by
  match n with
  | 0 => simp at hupper; omega
  | n + 1 =>
    simp only [Nat.add_sub_cancel] at hlower ⊢
    have hmin : min ((n + 1) * chunk_size) total = total := Nat.min_eq_right hupper
    rw [hmin]
    have hnc : (n + 1) * chunk_size = n * chunk_size + chunk_size := by ring
    have hcomm : chunk_size * n = n * chunk_size := by ring
    have hsum : total = chunk_size * n + (total - n * chunk_size) := by omega
    have key : total % chunk_size = (total - n * chunk_size) % chunk_size := by
      conv_lhs => rw [hsum]
      rw [Nat.mul_add_mod]
    by_cases hL : total - n * chunk_size = chunk_size
    · have h0 : total % chunk_size = 0 := by
        rw [key, hL, Nat.mod_self]
      rw [h0, if_pos rfl, hL]
    · have hLlt : total - n * chunk_size < chunk_size := by omega
      have hmodL : total % chunk_size = total - n * chunk_size := by
        rw [key]
        exact Nat.mod_eq_of_lt hLlt
      rw [hmodL, if_neg (by omega)]

/-- Claim C2: for every `total > 0` and `chunk_size > 0`, the planned chunk
sequence covers `[0, total)` exactly — contiguous, non-overlapping, ordered
by index, counting `ceil(total / chunk_size)` ranges, all of length
`chunk_size` except the last, which holds `total % chunk_size` (or
`chunk_size` when it divides evenly). -/
theorem plan_covers_range_exactly (total chunk_size : Nat)
    (ht : 0 < total) (hc : 0 < chunk_size) :
    plan_is_partition total chunk_size := by
  obtain ⟨hn0, hupper, hlower⟩ := ceil_div_bounds total chunk_size ht hc
  have hlen := plan_length total chunk_size
  refine ⟨hlen, ?_, ?_, ?_, ?_, ?_, ?_, ?_, ?_⟩
  · intro i h
    rw [plan_get]
    exact ⟨rfl, rfl, rfl⟩
  · intro i h
    rw [plan_get, plan_get]
    have hle : (i + 1) * chunk_size ≤ total := plan_mid_end_le total chunk_size ht hc i h
    exact Nat.min_eq_left hle
  · intro h
    rw [plan_get]
    exact Nat.zero_mul chunk_size
  · intro h
    rw [plan_get]
    have hn1 : (plan total chunk_size).length - 1 + 1 = (total + chunk_size - 1) / chunk_size := by
      rw [hlen]; omega
    rw [hn1]
    exact Nat.min_eq_right hupper
  · intro k
    constructor
    · intro hk
      have hklt : k / chunk_size < (plan total chunk_size).length := by
        rw [hlen, Nat.div_lt_iff_lt_mul hc]
        exact Nat.lt_of_lt_of_le hk hupper
      refine ⟨k / chunk_size, hklt, ?_, ?_⟩
      · rw [plan_get]
        exact Nat.div_mul_le_self k chunk_size
      · rw [plan_get]
        refine Nat.lt_min.mpr ⟨?_, hk⟩
        have hdm := Nat.div_add_mod k chunk_size
        have hml := Nat.mod_lt k hc
        have hr : (k / chunk_size + 1) * chunk_size
            = chunk_size * (k / chunk_size) + chunk_size := by ring
        omega
    · rintro ⟨i, h, h1, h2⟩
      rw [plan_get] at h2
      exact Nat.lt_of_lt_of_le h2 (Nat.min_le_right _ _)
  · intro k i j hi hj hi1 hi2 hj1 hj2
    rw [plan_get] at hi1 hi2 hj1 hj2
    have hi2m : k < (i + 1) * chunk_size := Nat.lt_of_lt_of_le hi2 (Nat.min_le_left _ _)
    have hj2m : k < (j + 1) * chunk_size := Nat.lt_of_lt_of_le hj2 (Nat.min_le_left _ _)
    have hki : k / chunk_size = i := Nat.div_eq_of_lt_le hi1 hi2m
    have hkj : k / chunk_size = j := Nat.div_eq_of_lt_le hj1 hj2m
    omega
  · intro i h
    rw [plan_get]
    dsimp only
    have hle : (i + 1) * chunk_size ≤ total := plan_mid_end_le total chunk_size ht hc i h
    have hr : (i + 1) * chunk_size = i * chunk_size + chunk_size := by ring
    omega
  · intro h
    rw [plan_get]
    have hn1 : (plan total chunk_size).length - 1 + 1
        = (total + chunk_size - 1) / chunk_size - 1 + 1 := by
      rw [hlen]
    rw [hn1, hlen]
    exact last_chunk_length total chunk_size _ hc hupper hlower

/-- Witness for C2 at the spec's own scenario `total = 1000`,
`chunk_size = 256` (four ranges, the last holding `1000 mod 256 = 232`). -/
theorem plan_covers_range_exactly_witness :
    0 < 1000 ∧ 0 < 256 ∧ plan_is_partition 1000 256 :=
  ⟨by decide, by decide, plan_covers_range_exactly 1000 256 (by decide) (by decide)⟩

/-- Joining the first `n` chunk slices yields the contiguous evaluation of
`[0, min (n * chunk_size) total)`. -/
theorem join_chunk_slices {α : Type} (g : Nat → α) (total chunk_size : Nat) :
    ∀ n : Nat,
      (((List.range n).map fun i =>
          (List.range' (i * chunk_size)
            (min ((i + 1) * chunk_size) total - i * chunk_size)).map g).flatten)
        = (List.range' 0 (min (n * chunk_size) total)).map g := by
  intro n
  induction n with
  | zero => simp
  | succ m ih =>
    rw [List.range_succ, List.map_append, List.flatten_append, ih]
    simp only [List.map_cons, List.map_nil, List.flatten_cons, List.flatten_nil, List.append_nil]
    rcases le_or_lt (m * chunk_size) total with hle | hlt
    · have hsucc : (m + 1) * chunk_size = m * chunk_size + chunk_size := by ring
      have harg : min ((m + 1) * chunk_size) total - m * chunk_size + m * chunk_size
          = min ((m + 1) * chunk_size) total := by omega
      rw [Nat.min_eq_left hle, ← List.map_append]
      have happ := List.range'_append_1 0 (m * chunk_size)
        (min ((m + 1) * chunk_size) total - m * chunk_size)
      rw [Nat.zero_add] at happ
      rw [happ, harg]
    · have hm1 : min (m * chunk_size) total = total := Nat.min_eq_right (Nat.le_of_lt hlt)
      have hsucc : (m + 1) * chunk_size = m * chunk_size + chunk_size := by ring
      have hm2 : min ((m + 1) * chunk_size) total = total := by omega
      rw [hm1, hm2]
      have hz : total - m * chunk_size = 0 := by omega
      rw [hz]
      simp

/-- Reassembly equals the directly produced full parameter set, as lists of
per-index values. -/
theorem reassemble_eq_full_parameters {α : Type} (g : Nat → α) (total chunk_size : Nat)
    (ht : 0 < total) (hc : 0 < chunk_size) :
    reassemble g total chunk_size = full_parameters g total := by
  obtain ⟨hn0, hupper, hlower⟩ := ceil_div_bounds total chunk_size ht hc
  unfold reassemble full_parameters plan
  rw [List.map_map]
  have hcomp : (chunk_parameters g ∘ fun i =>
      ChunkRange.mk i (i * chunk_size) (min ((i + 1) * chunk_size) total))
      = fun i => (List.range' (i * chunk_size)
          (min ((i + 1) * chunk_size) total - i * chunk_size)).map g := rfl
  rw [hcomp, join_chunk_slices g total chunk_size _, Nat.min_eq_right hupper,
    List.range_eq_range']

/-- Claim C3: reassembling the contributions of all per-chunk artifacts
reproduces exactly the full parameter set produced directly in the same run
— equal as structures, hence equal on any serialization of them (the
spec's serialized-bytes comparison). -/
theorem chunks_reassemble_to_full {α : Type} (g : Nat → α) (total chunk_size : Nat)
    (ht : 0 < total) (hc : 0 < chunk_size) :
    reassemble g total chunk_size = full_parameters g total ∧
    ∀ serializeBytes : List α → List Nat,
      serializeBytes (reassemble g total chunk_size)
        = serializeBytes (full_parameters g total) := by
  have hmain := reassemble_eq_full_parameters g total chunk_size ht hc
  exact ⟨hmain, fun s => by rw [hmain]⟩

/-- Witness for C3 at `total = 5`, `chunk_size = 2`, evaluating index `i` to
`i * i`. -/
theorem chunks_reassemble_to_full_witness :
    0 < 5 ∧ 0 < 2 ∧
    (reassemble (fun i => i * i) 5 2 = full_parameters (fun i => i * i) 5 ∧
      ∀ serializeBytes : List Nat → List Nat,
        serializeBytes (reassemble (fun i => i * i) 5 2)
          = serializeBytes (full_parameters (fun i => i * i) 5)) :=
  ⟨by decide, by decide,
    chunks_reassemble_to_full (fun i => i * i) 5 2 (by decide) (by decide)⟩

/-- The success-path output of `generate_params_chunked`, explicitly. -/
theorem generate_params_chunked_ok {P Q : Type} (counter : ConstraintCounter)
    (full_mpc_parameters : P) (query_parameters : Q) (all_mpc_parameters : List P)
    (write_params : P → List Nat) (serialize : Q → List Nat)
    (calculate_hash : List Nat → List Nat) (opt : NewOpts)
    (hcond : ¬ (1 <<< opt.phase1_powers < ceremony_size counter)) :
    generate_params_chunked counter
        (full_mpc_parameters, query_parameters, all_mpc_parameters)
        write_params serialize calculate_hash opt
      = Except.ok
        ([{ name := opt.challenge_fname ++ ".full",
            data := FileData.bytes (write_params full_mpc_parameters) },
          { name := opt.challenge_fname ++ ".query",
            data := FileData.bytes (serialize query_parameters) },
          { name := "phase1",
            data := FileData.text
              (manifest_content opt.challenge_fname all_mpc_parameters.length) }]
          ++ chunk_file_writes write_params opt.challenge_fname all_mpc_parameters
          ++ [{ name := opt.challenge_hash_fname ++ ".query\n",
                data := FileData.bytes
                  (calculate_hash (write_params full_mpc_parameters)) }]) := by
  unfold generate_params_chunked new_from_buffer_chunked
  rw [if_neg hcond]
  rfl

/-- The error path of `generate_params_chunked`, explicitly: an undersized
transcript short-circuits the run. -/
theorem generate_params_chunked_error {P Q : Type} (counter : ConstraintCounter)
    (generated : P × Q × List P) (write_params : P → List Nat)
    (serialize : Q → List Nat) (calculate_hash : List Nat → List Nat) (opt : NewOpts)
    (h : 1 <<< opt.phase1_powers < ceremony_size counter) :
    generate_params_chunked counter generated write_params serialize calculate_hash opt
        = Except.error GenError.insufficientTranscript := by
  obtain ⟨full_mpc_parameters, query_parameters, all_mpc_parameters⟩ := generated
  unfold generate_params_chunked new_from_buffer_chunked
  rw [if_pos h]

/-- Claim C4: when the Phase-1 transcript is too small
(`1 << phase1_powers < ceremony_size`), the run fails with the
insufficient-transcript error and creates no output file at all — the
`.full`, `.query`, chunk, manifest and hash writes all live on the success
path only. -/
theorem insufficient_transcript_no_output {P Q : Type} (counter : ConstraintCounter)
    (generated : P × Q × List P) (write_params : P → List Nat)
    (serialize : Q → List Nat) (calculate_hash : List Nat → List Nat) (opt : NewOpts)
    (h : 1 <<< opt.phase1_powers < ceremony_size counter) :
    generate_params_chunked counter generated write_params serialize calculate_hash opt
        = Except.error GenError.insufficientTranscript ∧
    ∀ writes : List FileWrite,
      generate_params_chunked counter generated write_params serialize calculate_hash opt
        ≠ Except.ok writes := by
  have hmain := generate_params_chunked_error counter generated write_params
    serialize calculate_hash opt h
  refine ⟨hmain, ?_⟩
  intro writes hcon
  rw [hmain] at hcon
  exact Except.noConfusion hcon

/-- Witness for C4: the blank circuit counts `(2 public, 2 private,
3 constraints)` give `ceremony_size = 5`, and `1 << 2 = 4 < 5`. -/
theorem insufficient_transcript_no_output_witness :
    (1 <<< sample_opts.phase1_powers < ceremony_size ⟨2, 2, 3⟩) ∧
    generate_params_chunked ⟨2, 2, 3⟩
        (((), (), ([] : List Unit)) : Unit × Unit × List Unit)
        (fun _ => []) (fun _ => []) (fun b => b) sample_opts
      = Except.error GenError.insufficientTranscript :=
  ⟨by decide, (insufficient_transcript_no_output ⟨2, 2, 3⟩ ((), (), [])
      (fun _ => []) (fun _ => []) (fun b => b) sample_opts (by decide)).1⟩

/-- Claim C5: on every successful run, the emitted contribution hash is the
digest of exactly the byte sequence written to the `<challenge>.full`
artifact — the first file created is `.full` holding some bytes
`fullBytes`, and the final hash artifact holds `calculate_hash fullBytes`
for those same bytes. -/
theorem emitted_hash_is_over_full_bytes {P Q : Type} (counter : ConstraintCounter)
    (generated : P × Q × List P) (write_params : P → List Nat)
    (serialize : Q → List Nat) (calculate_hash : List Nat → List Nat) (opt : NewOpts)
    (writes : List FileWrite)
    (h : generate_params_chunked counter generated write_params serialize
        calculate_hash opt = Except.ok writes) :
    ∃ fullBytes : List Nat,
      writes.head? = some { name := opt.challenge_fname ++ ".full",
                            data := FileData.bytes fullBytes } ∧
      writes.getLast? = some { name := opt.challenge_hash_fname ++ ".query\n",
                               data := FileData.bytes (calculate_hash fullBytes) } := by
  obtain ⟨full_mpc_parameters, query_parameters, all_mpc_parameters⟩ := generated
  by_cases hcond : 1 <<< opt.phase1_powers < ceremony_size counter
  · rw [generate_params_chunked_error counter
      (full_mpc_parameters, query_parameters, all_mpc_parameters)
      write_params serialize calculate_hash opt hcond] at h
    exact Except.noConfusion h
  · rw [generate_params_chunked_ok counter full_mpc_parameters query_parameters
      all_mpc_parameters write_params serialize calculate_hash opt hcond] at h
    have hw := Except.ok.inj h
    subst hw
    refine ⟨write_params full_mpc_parameters, rfl, ?_⟩
    exact List.getLast?_concat _

/-- Claim C6 (code bug): the content hash of the full parameter set is
written as raw digest bytes, but the destination filename is
`format!("{}.{}\n", challenge_hash_fname, "query")` — the format string
carries a trailing `\n` inside the file NAME — so the artifact is created
at `<hash-stem>.query\n`, which is never the string `<hash-stem>.query`
the naming contract calls for. -/
theorem hash_artifact_name_trailing_newline {P Q : Type} (counter : ConstraintCounter)
    (generated : P × Q × List P) (write_params : P → List Nat)
    (serialize : Q → List Nat) (calculate_hash : List Nat → List Nat) (opt : NewOpts)
    (writes : List FileWrite)
    (h : generate_params_chunked counter generated write_params serialize
        calculate_hash opt = Except.ok writes) :
    (∃ b : List Nat,
      writes.getLast? = some { name := opt.challenge_hash_fname ++ ".query\n",
                               data := FileData.bytes b }) ∧
    opt.challenge_hash_fname ++ ".query\n" ≠ opt.challenge_hash_fname ++ ".query" := by
  obtain ⟨full_mpc_parameters, query_parameters, all_mpc_parameters⟩ := generated
  constructor
  · by_cases hcond : 1 <<< opt.phase1_powers < ceremony_size counter
    · rw [generate_params_chunked_error counter
        (full_mpc_parameters, query_parameters, all_mpc_parameters)
        write_params serialize calculate_hash opt hcond] at h
      exact Except.noConfusion h
    · rw [generate_params_chunked_ok counter full_mpc_parameters query_parameters
        all_mpc_parameters write_params serialize calculate_hash opt hcond] at h
      have hw := Except.ok.inj h
      subst hw
      exact ⟨calculate_hash (write_params full_mpc_parameters), List.getLast?_concat _⟩
  · intro heq
    have hlen := congrArg String.length heq
    rw [String.length_append, String.length_append] at hlen
    have h7 : (".query\n" : String).length = 7 := rfl
    have h6 : (".query" : String).length = 6 := rfl
    omega

/-- Claim C7: every successful run writes the chunk manifest to the
hard-coded filename `"phase1"` — whatever the configured output stem is —
as text consisting of exactly one line per chunk, in ascending chunk-index
order `0..n-1`, each line being exactly the chunk's own on-disk filename
`<stem>.<i>` followed by a newline; and a file is indeed written for every
such name. -/
theorem manifest_hard_coded_and_ordered {P Q : Type} (counter : ConstraintCounter)
    (generated : P × Q × List P) (write_params : P → List Nat)
    (serialize : Q → List Nat) (calculate_hash : List Nat → List Nat) (opt : NewOpts)
    (writes : List FileWrite)
    (h : generate_params_chunked counter generated write_params serialize
        calculate_hash opt = Except.ok writes) :
    ∃ n : Nat,
      { name := "phase1",
        data := FileData.text (manifest_content opt.challenge_fname n) } ∈ writes ∧
      manifest_content opt.challenge_fname n
        = String.join ((List.range n).map fun i =>
            chunk_name opt.challenge_fname i ++ "\n") ∧
      writes.length = n + 4 ∧
      (∀ i : Nat, i < n → ∃ b : List Nat,
        { name := chunk_name opt.challenge_fname i,
          data := FileData.bytes b } ∈ writes) := by
  obtain ⟨full_mpc_parameters, query_parameters, all_mpc_parameters⟩ := generated
  by_cases hcond : 1 <<< opt.phase1_powers < ceremony_size counter
  · rw [generate_params_chunked_error counter
      (full_mpc_parameters, query_parameters, all_mpc_parameters)
      write_params serialize calculate_hash opt hcond] at h
    exact Except.noConfusion h
  · rw [generate_params_chunked_ok counter full_mpc_parameters query_parameters
      all_mpc_parameters write_params serialize calculate_hash opt hcond] at h
    have hw := Except.ok.inj h
    subst hw
    refine ⟨all_mpc_parameters.length, ?_, rfl, ?_, ?_⟩
    · apply List.mem_append_left
      apply List.mem_append_left
      simp
    · simp [chunk_file_writes, List.length_append]
    · intro i hi
      have hilen : i < (chunk_file_writes write_params opt.challenge_fname
          all_mpc_parameters).length := by
        simp [chunk_file_writes]
        omega
      refine ⟨write_params (all_mpc_parameters.get ⟨i, hi⟩), ?_⟩
      apply List.mem_append_left
      apply List.mem_append_right
      have helem : (chunk_file_writes write_params opt.challenge_fname
            all_mpc_parameters).get ⟨i, hilen⟩
          = { name := chunk_name opt.challenge_fname i,
              data := FileData.bytes (write_params (all_mpc_parameters.get ⟨i, hi⟩)) } := by
        simp [chunk_file_writes, List.get_eq_getElem, List.getElem_map, List.getElem_enum]
      rw [← helem]
      exact List.get_mem _ _ _

/-- Witness for C5: a two-chunk run with `write_params = [7]`,
`serialize = [9]` and `calculate_hash b = 0 :: b`. -/
theorem emitted_hash_is_over_full_bytes_witness :
    (generate_params_chunked ⟨2, 2, 3⟩ (((), (), [(), ()]) : Unit × Unit × List Unit)
        (fun _ => [7]) (fun _ => [9]) (fun b => 0 :: b) sample_opts_ok
      = Except.ok c5_writes) ∧
    ∃ fullBytes : List Nat,
      c5_writes.head? = some { name := sample_opts_ok.challenge_fname ++ ".full",
                               data := FileData.bytes fullBytes } ∧
      c5_writes.getLast? = some { name := sample_opts_ok.challenge_hash_fname ++ ".query\n",
                                  data := FileData.bytes (0 :: fullBytes) } :=
  ⟨by rfl, emitted_hash_is_over_full_bytes ⟨2, 2, 3⟩ ((), (), [(), ()])
      (fun _ => [7]) (fun _ => [9]) (fun b => 0 :: b) sample_opts_ok c5_writes (by rfl)⟩

/-- Witness for C6: at the default hash stem the artifact lands at
`"challenge.verified.hash.query\n"` — trailing newline and all. -/
theorem hash_artifact_name_trailing_newline_witness :
    (generate_params_chunked ⟨2, 2, 3⟩ (((), (), [()]) : Unit × Unit × List Unit)
        (fun _ => [1]) (fun _ => [2]) (fun b => b) sample_opts_ok
      = Except.ok c6_writes) ∧
    ((∃ b : List Nat,
        c6_writes.getLast? = some { name := sample_opts_ok.challenge_hash_fname ++ ".query\n",
                                    data := FileData.bytes b }) ∧
      sample_opts_ok.challenge_hash_fname ++ ".query\n"
        ≠ sample_opts_ok.challenge_hash_fname ++ ".query") :=
  ⟨by rfl, hash_artifact_name_trailing_newline ⟨2, 2, 3⟩ ((), (), [()])
      (fun _ => [1]) (fun _ => [2]) (fun b => b) sample_opts_ok c6_writes (by rfl)⟩

/-- Witness for C7: a three-chunk run; the manifest rides in the
hard-coded "phase1" file and lists `challenge.0`, `challenge.1`,
`challenge.2` in order. -/
theorem manifest_hard_coded_and_ordered_witness :
    (generate_params_chunked ⟨2, 2, 3⟩ (((), (), [(), (), ()]) : Unit × Unit × List Unit)
        (fun _ => [4]) (fun _ => [5]) (fun b => b) sample_opts_ok
      = Except.ok c7_writes) ∧
    ∃ n : Nat,
      { name := "phase1",
        data := FileData.text (manifest_content sample_opts_ok.challenge_fname n) } ∈ c7_writes ∧
      manifest_content sample_opts_ok.challenge_fname n
        = String.join ((List.range n).map fun i =>
            chunk_name sample_opts_ok.challenge_fname i ++ "\n") ∧
      c7_writes.length = n + 4 ∧
      (∀ i : Nat, i < n → ∃ b : List Nat,
        { name := chunk_name sample_opts_ok.challenge_fname i,
          data := FileData.bytes b } ∈ c7_writes) :=
  ⟨by rfl, manifest_hard_coded_and_ordered ⟨2, 2, 3⟩ ((), (), [(), (), ()])
      (fun _ => [4]) (fun _ => [5]) (fun b => b) sample_opts_ok c7_writes (by rfl)⟩

/-- Witness for C1, instantiating every quantifier of the main statement:
`k = 2`, the modelled `log_2` itself, and the counter `(4, 5, 6)`. -/
theorem ceremony_size_not_rounded_up_witness :
    ceremony_size ⟨2, 2, 3⟩ = 5 ∧
    2 ^ 2 ≠ ceremony_size ⟨2, 2, 3⟩ ∧
    ceremony_size_with log_2 ⟨2, 2, 3⟩ ≠ 8 ∧
    ceremony_size ⟨4, 5, 6⟩ = max 6 (5 + 4 + 1) :=
  ⟨ceremony_size_not_rounded_up.1, ceremony_size_not_rounded_up.2.1 2,
   ceremony_size_not_rounded_up.2.2.1 log_2, ceremony_size_not_rounded_up.2.2.2 ⟨4, 5, 6⟩⟩

/-- Witness for C8 at the concrete input `"BW6"` (accepted after
lowercasing) — the parser facts instantiated. -/
theorem mode_parsers_accept_exactly_witness :
    ((∃ c, curve_from_str "BW6" = Except.ok c)
        ↔ ((String.toLower "BW6") = "bls12_377" ∨ (String.toLower "BW6") = "bw6")) ∧
    (curve_from_str "BW6" = Except.error "unsupported curve."
        ↔ ¬((String.toLower "BW6") = "bls12_377" ∨ (String.toLower "BW6") = "bw6")) ∧
    ((∃ m, contribution_mode_from_str "BW6" = Except.ok m)
        ↔ ((String.toLower "BW6") = "full" ∨ (String.toLower "BW6") = "chunked")) ∧
    (contribution_mode_from_str "BW6"
          = Except.error "unsupported contribution mode. Currently supported: full, chunked"
        ↔ ¬((String.toLower "BW6") = "full" ∨ (String.toLower "BW6") = "chunked")) :=
  mode_parsers_accept_exactly "BW6"

/-- Witness for C9 at `Q = Unit`, `serialize _ = [3]`. -/
theorem query_bytes_ignore_compression_witness :
    (serialize_query_match UseCompression.No (fun _ : Unit => [3]) ()
        = serialize_query_match UseCompression.Yes (fun _ : Unit => [3]) ()) ∧
    (∀ compression : UseCompression,
      serialize_query_match compression (fun _ : Unit => [3]) () = [3]) :=
  query_bytes_ignore_compression (fun _ => [3]) ()

/-- Witness for C10 at the default options (`is_inner = "true"`). -/
theorem new_branches_on_exact_true_witness :
    (new_circuit_path sample_opts = SetupPath.inner ↔ sample_opts.is_inner = "true") ∧
    (new_circuit_path sample_opts = SetupPath.outer ↔ sample_opts.is_inner ≠ "true") ∧
    new_circuit_path { sample_opts with is_inner := "True" } = SetupPath.outer ∧
    new_circuit_path { sample_opts with is_inner := "TRUE" } = SetupPath.outer ∧
    new_circuit_path { sample_opts with is_inner := "1" } = SetupPath.outer :=
  new_branches_on_exact_true sample_opts
